import Mathlib

/-!
# gorax: monitoring client and compute region client

A shallow embedding of `monitoring/client.go` and `v2.0/cloud/servers/region.go`.

* A Go slice is `Option (List α)`; `none` is the `nil` slice, `some []` an empty non-nil one.
* A Go `error` result is an `Option`; `none` is `nil`.
* The REST client, the body decoder and the `perigee` calls are not part of the two files;
  they are arbitrary functions over an explicit world state `σ`, so a server may answer
  differently over time.
* Every operation also returns the list of requests it issued (`sent`, `calls`): this is the
  only ghost state, nothing in the code reads it.
* `CreateServer` declares `ns` twice in its function block, so Go does not build it; it is
  embedded as the declarations of its block and Go's check of them.
* `for { ... }` is a loop body iterated a bounded number of times (`loop`); a run that has
  not returned within the bound is `none`.
-/

namespace Gorax

/-- A Go slice; `none` is `nil`. -/
abbrev Slice (α : Type) := Option (List α)

/-- The elements of a slice, `nil` having none. -/
def Slice.elems {α : Type} : Slice α → List α
  | none => []
  | some l => l

/-- Go `make([]T, 0)`: an empty slice that is not `nil`. -/
def make0 {α : Type} : Slice α := some []

/-- Go `append(s, vs...)`: `nil` only when `s` is `nil` and nothing is appended. -/
def appendSlice {α : Type} (s vs : Slice α) : Slice α :=
  match s, vs.elems with
  | none, [] => none
  | s, l => some (s.elems ++ l)

/-- How a call of a Go function ends: it returns, the process exits (`os.Exit`), or it
panics on a nil dereference. -/
inductive Outcome (α : Type) where
  | returned (v : α)
  | exited (code : Nat)
  | panicked
deriving DecidableEq, Repr

/-- Go `fmt.Sprintf("%s/%s", a, b)`. -/
def sprintfSlash (a b : String) : String := a ++ "/" ++ b

namespace monitoring

/-- Go `http.StatusOK`. -/
def StatusOK : Nat := 200

/-- The fields of `gorax.RestRequest` that the client sets. -/
structure RestRequest where
  Method : String
  Path : String
  ExpectedStatusCodes : List Nat
deriving DecidableEq, Repr

/-- The `gorax.RestClient` behind a `MonitoringClient`: `PerformRequest` takes the request
and the world and gives the response or the error, and the next world. -/
structure MonitoringClient (σ ρ ε : Type) where
  PerformRequest : RestRequest → σ → Except ε ρ × σ

/-- The `Metadata` of a paginated list. -/
structure PaginationMetadata where
  NextMarker : Option String
deriving DecidableEq, Repr

/-- The shape shared by `PaginatedEntityList` and `PaginatedCheckList`. -/
structure PaginatedList (α : Type) where
  Values : Slice α
  Metadata : PaginationMetadata
deriving DecidableEq, Repr

abbrev PaginatedEntityList (Entity : Type) := PaginatedList Entity

abbrev PaginatedCheckList (Check : Type) := PaginatedList Check

/-- What `resp.DeserializeBody(target)` does for a freshly allocated `target`: the value left
in the target and the error returned. -/
abbrev Decoder (ρ ε α : Type) := ρ → α × Option ε

/-- The local variables of a listing loop between two iterations, the requests issued so far
and the world. -/
structure LoopVars (σ α : Type) where
  items : Slice α
  nextMarker : Option String
  sent : List RestRequest
  world : σ

/-- The variables of a listing loop on entry (`make([]T, 0)` and `var nextMarker *string`):
an empty non-nil list, no marker; nothing sent yet. -/
def entry {σ α : Type} (w : σ) : LoopVars σ α := ⟨make0, none, [], w⟩

/-- What a call left behind when it ended: the two results, the requests issued, the world. -/
structure Ended (σ τ ε : Type) where
  value : τ
  err : Option ε
  sent : List RestRequest
  world : σ

/-- Runs a loop body at most `fuel` times: `.inl` while the loop is still running, `.inr` once
the function has returned. -/
def loop {S R : Type} (body : S → S ⊕ R) : Nat → S → S ⊕ R
  | 0, s => .inl s
  | fuel + 1, s =>
    match body s with
    | .inl s' => loop body fuel s'
    | .inr r => .inr r

/-- The result of a loop once it has returned. -/
def returnedWithin {S R : Type} (body : S → S ⊕ R) (fuel : Nat) (s : S) : Option R :=
  match loop body fuel s with
  | .inl _ => none
  | .inr r => some r

/-- One iteration of the `for true` loop of `ListEntities` (client.go lines 43-74). -/
def ListEntities.iteration {σ ρ ε Entity : Type} (m : MonitoringClient σ ρ ε)
    (DeserializeBody : Decoder ρ ε (PaginatedEntityList Entity)) (s : LoopVars σ Entity) :
    LoopVars σ Entity ⊕ Ended σ (Slice Entity) ε :=
  let restReq : RestRequest :=
    { Method := "GET", Path := "/entities", ExpectedStatusCodes := [StatusOK] }
  let restReq : RestRequest :=
    match s.nextMarker with
    | some nextMarker => { restReq with Path := restReq.Path ++ ("?marker=" ++ nextMarker) }
    | none => restReq
  match m.PerformRequest restReq s.world with
  | (.error err, w) => .inr ⟨none, some err, s.sent ++ [restReq], w⟩
  | (.ok resp, w) =>
    match DeserializeBody resp with
    | (_, some err) => .inr ⟨none, some err, s.sent ++ [restReq], w⟩
    | (container, none) =>
      let entities := appendSlice s.items container.Values
      match container.Metadata.NextMarker with
      | none => .inr ⟨entities, none, s.sent ++ [restReq], w⟩
      | some nextMarker => .inl ⟨entities, some nextMarker, s.sent ++ [restReq], w⟩

/-- `ListEntities` (client.go lines 39-77), run for at most `fuel` iterations. -/
def ListEntities {σ ρ ε Entity : Type} (fuel : Nat) (m : MonitoringClient σ ρ ε)
    (DeserializeBody : Decoder ρ ε (PaginatedEntityList Entity)) (w : σ) :
    Option (Ended σ (Slice Entity) ε) :=
  returnedWithin (ListEntities.iteration m DeserializeBody) fuel (entry w)

/-- One iteration of the `for` loop of `ListChecks` (client.go lines 104-135). -/
def ListChecks.iteration {σ ρ ε Check : Type} (m : MonitoringClient σ ρ ε)
    (DeserializeBody : Decoder ρ ε (PaginatedCheckList Check)) (entityId : String)
    (s : LoopVars σ Check) : LoopVars σ Check ⊕ Ended σ (Slice Check) ε :=
  let restReq : RestRequest :=
    { Method := "GET", Path := "/entities/" ++ entityId ++ "/checks",
      ExpectedStatusCodes := [StatusOK] }
  let restReq : RestRequest :=
    match s.nextMarker with
    | some nextMarker => { restReq with Path := restReq.Path ++ ("?marker=" ++ nextMarker) }
    | none => restReq
  match m.PerformRequest restReq s.world with
  | (.error err, w) => .inr ⟨none, some err, s.sent ++ [restReq], w⟩
  | (.ok resp, w) =>
    match DeserializeBody resp with
    | (_, some err) => .inr ⟨none, some err, s.sent ++ [restReq], w⟩
    | (container, none) =>
      let checks := appendSlice s.items container.Values
      match container.Metadata.NextMarker with
      | none => .inr ⟨checks, none, s.sent ++ [restReq], w⟩
      | some nextMarker => .inl ⟨checks, some nextMarker, s.sent ++ [restReq], w⟩

/-- `ListChecks` (client.go lines 100-138), run for at most `fuel` iterations. -/
def ListChecks {σ ρ ε Check : Type} (fuel : Nat) (m : MonitoringClient σ ρ ε)
    (DeserializeBody : Decoder ρ ε (PaginatedCheckList Check)) (entityId : String) (w : σ) :
    Option (Ended σ (Slice Check) ε) :=
  returnedWithin (ListChecks.iteration m DeserializeBody entityId) fuel (entry w)

/-- `GetEntity` (client.go lines 79-95): the decode error is assigned to `err` and returned
next to the entity. -/
def GetEntity {σ ρ ε Entity : Type} (m : MonitoringClient σ ρ ε)
    (DeserializeBody : Decoder ρ ε Entity) (entityId : String) (w : σ) :
    Ended σ (Option Entity) ε :=
  let restReq : RestRequest :=
    { Method := "GET", Path := "/entities/" ++ entityId, ExpectedStatusCodes := [StatusOK] }
  match m.PerformRequest restReq w with
  | (.error err, w1) => ⟨none, some err, [restReq], w1⟩
  | (.ok resp, w1) =>
    let (entity, err) := DeserializeBody resp
    ⟨some entity, err, [restReq], w1⟩

/-- The result shapes `HostInfoEntity` chooses from. -/
inductive HostInfoShape where
  | CpuHostInfo
  | MemoryHostInfo
  | NetworkInterfaceHostInfo
  | SystemHostInfo
  | DiskHostInfo
  | FilesystemsHostInfo
  | ProcessesHostInfo
deriving DecidableEq, Repr

/-- The `switch hostInfoType` of `HostInfoEntity` (client.go lines 159-177): the shape
allocated for a tag, `none` on the `default` branch. -/
def hostInfoSwitch (hostInfoType : String) : Option HostInfoShape :=
  if hostInfoType = "cpus" then some .CpuHostInfo
  else if hostInfoType = "memory" then some .MemoryHostInfo
  else if hostInfoType = "network_interfaces" then some .NetworkInterfaceHostInfo
  else if hostInfoType = "system" then some .SystemHostInfo
  else if hostInfoType = "disks" then some .DiskHostInfo
  else if hostInfoType = "filesystems" then some .FilesystemsHostInfo
  else if hostInfoType = "processes" then some .ProcessesHostInfo
  else none

/-- What a call of `HostInfoEntity` left behind: how it ended, the lines logged, the requests
issued, the world. -/
structure HostInfoRun (σ τ : Type) where
  outcome : Outcome τ
  logged : List String
  sent : List RestRequest
  world : σ

/-- `HostInfoEntity` (client.go lines 156-193). `info` is the shape chosen and the contents
decoded into it. On the `default` branch the code logs and calls `os.Exit(1)`. The value of
`resp.DeserializeBody(info)` is dropped: the `err` returned is the one of `PerformRequest`,
which is `nil` at that point. -/
def HostInfoEntity {σ ρ ε J : Type} (m : MonitoringClient σ ρ ε)
    (DeserializeBody : HostInfoShape → Decoder ρ ε J) (entityId hostInfoType : String) (w : σ) :
    HostInfoRun σ (Option (HostInfoShape × J) × Option ε) :=
  match hostInfoSwitch hostInfoType with
  | none => ⟨.exited 1, ["Invalid Type"], [], w⟩
  | some shape =>
    let path := "/entities/" ++ entityId ++ "/agent/host_info/" ++ hostInfoType
    let restReq : RestRequest :=
      { Method := "GET", Path := path, ExpectedStatusCodes := [StatusOK] }
    match m.PerformRequest restReq w with
    | (.error err, w1) => ⟨.returned (none, some err), [], [restReq], w1⟩
    | (.ok resp, w1) =>
      let (info, _) := DeserializeBody shape resp
      ⟨.returned (some (shape, info), none), [], [restReq], w1⟩

/-- `AgentTargets` (client.go lines 195-212). As in `HostInfoEntity` the value of
`resp.DeserializeBody(info)` is dropped. -/
def AgentTargets {σ ρ ε AgentTarget : Type} (m : MonitoringClient σ ρ ε)
    (DeserializeBody : Decoder ρ ε AgentTarget) (entityId agentType : String) (w : σ) :
    Ended σ (Option AgentTarget) ε :=
  let path := "/entities/" ++ entityId ++ "/agent/check_types/" ++ agentType ++ "/targets"
  let restReq : RestRequest :=
    { Method := "GET", Path := path, ExpectedStatusCodes := [StatusOK] }
  match m.PerformRequest restReq w with
  | (.error err, w1) => ⟨none, some err, [restReq], w1⟩
  | (.ok resp, w1) =>
    let (info, _) := DeserializeBody resp
    ⟨some info, none, [restReq], w1⟩

end monitoring

namespace servers

/-- The field of `identity.EntryEndpoint` the region reads. -/
structure EntryEndpoint where
  PublicURL : String
deriving DecidableEq, Repr

/-- A `raxRegion` (region.go lines 13-18); the identity and the HTTP client are kept as
values of arbitrary types. -/
structure raxRegion (ι κ : Type) where
  id : ι
  entryEndpoint : EntryEndpoint
  httpClient : κ
  token : String

/-- A Go `error` value met in the region code: one made by `fmt.Errorf`, or one returned by
`perigee`. -/
inductive Error (ε : Type) where
  | Errorf (msg : String)
  | perigee (e : ε)
deriving DecidableEq, Repr

/-- The fields of `perigee.Options` the region sets, `Results` apart. -/
structure Options (κ β : Type) where
  CustomClient : Option κ
  ReqBody : Option β
  MoreHeaders : List (String × String)
  OkCodes : List Nat

/-- A `perigee.Get` or `perigee.Post`: from the URL, the options and the world to the error
returned, the value left in the `Results` target, and the next world. -/
abbrev Call (σ ε κ β R : Type) := String → Options κ β → σ → (Option (Error ε) × R) × σ

/-- One call of `perigee` as the region issued it. -/
structure Requested where
  Method : String
  Url : String
  OkCodes : List Nat
deriving DecidableEq, Repr

/-- What a region operation left behind: how it ended, the `perigee` calls issued, the
world. -/
structure Run (σ τ : Type) where
  outcome : Outcome τ
  calls : List Requested
  world : σ

/-- The envelope of a list of flavors. -/
structure FlavorsContainer (Flavor : Type) where
  Flavors : Slice Flavor

/-- The envelope of a list of images. -/
structure ImagesContainer (Image : Type) where
  Images : Slice Image

/-- The envelope of a list of servers. -/
structure ServersContainer (Server : Type) where
  Servers : Slice Server

/-- The envelope of one server record. -/
structure ServerInfoContainer (Server : Type) where
  Server : Server

/-- The map literal of `EndpointByName` (region.go lines 138-142). -/
def supportedEndpoint : List (String × Bool) :=
  [("images", true), ("flavors", true), ("servers", true)]

/-- Go `m[k]` on a `map[string]bool`: `false` for a key that is not in the map. -/
def mapIndex (m : List (String × Bool)) (k : String) : Bool :=
  (m.lookup k).getD false

/-- `EndpointByName` (region.go lines 137-149). It takes no world and no `perigee` call. -/
def raxRegion.EndpointByName {ι κ ε : Type} (r : raxRegion ι κ) (name : String) :
    String × Option (Error ε) :=
  if mapIndex supportedEndpoint name then
    let api := sprintfSlash r.entryEndpoint.PublicURL name
    (api, none)
  else
    ("", some (.Errorf "Unsupported endpoint"))

/-- `Flavors` (region.go lines 21-37). The error of `EndpointByName` is discarded. `fc` is a
nil pointer unless `perigee` filled it, and `fc.Flavors` on a nil `fc` panics. -/
def raxRegion.Flavors {σ ε ι κ Flavor : Type}
    (Get : Call σ ε κ Empty (Option (FlavorsContainer Flavor))) (r : raxRegion ι κ) (w : σ) :
    Run σ (Slice Flavor × Option (Error ε)) :=
  let url := (r.EndpointByName "flavors" : String × Option (Error ε)).1
  let opts : Options κ Empty :=
    { CustomClient := some r.httpClient, ReqBody := none,
      MoreHeaders := [("X-Auth-Token", r.token)], OkCodes := [] }
  match Get url opts w with
  | ((some err, _), w1) => ⟨.returned (none, some err), [⟨"GET", url, []⟩], w1⟩
  | ((none, none), w1) => ⟨.panicked, [⟨"GET", url, []⟩], w1⟩
  | ((none, some fc), w1) => ⟨.returned (fc.Flavors, none), [⟨"GET", url, []⟩], w1⟩

/-- `Images` (region.go lines 40-56). -/
def raxRegion.Images {σ ε ι κ Image : Type}
    (Get : Call σ ε κ Empty (Option (ImagesContainer Image))) (r : raxRegion ι κ) (w : σ) :
    Run σ (Slice Image × Option (Error ε)) :=
  let url := (r.EndpointByName "images" : String × Option (Error ε)).1
  let opts : Options κ Empty :=
    { CustomClient := some r.httpClient, ReqBody := none,
      MoreHeaders := [("X-Auth-Token", r.token)], OkCodes := [] }
  match Get url opts w with
  | ((some err, _), w1) => ⟨.returned (none, some err), [⟨"GET", url, []⟩], w1⟩
  | ((none, none), w1) => ⟨.panicked, [⟨"GET", url, []⟩], w1⟩
  | ((none, some ic), w1) => ⟨.returned (ic.Images, none), [⟨"GET", url, []⟩], w1⟩

/-- `Servers` (region.go lines 60-76). -/
def raxRegion.Servers {σ ε ι κ Server : Type}
    (Get : Call σ ε κ Empty (Option (ServersContainer Server))) (r : raxRegion ι κ) (w : σ) :
    Run σ (Slice Server × Option (Error ε)) :=
  let url := (r.EndpointByName "servers" : String × Option (Error ε)).1
  let opts : Options κ Empty :=
    { CustomClient := some r.httpClient, ReqBody := none,
      MoreHeaders := [("X-Auth-Token", r.token)], OkCodes := [] }
  match Get url opts w with
  | ((some err, _), w1) => ⟨.returned (none, some err), [⟨"GET", url, []⟩], w1⟩
  | ((none, none), w1) => ⟨.panicked, [⟨"GET", url, []⟩], w1⟩
  | ((none, some sc), w1) => ⟨.returned (sc.Servers, none), [⟨"GET", url, []⟩], w1⟩

/-- A declaration in the block of a Go function: a receiver or parameter, a `var`, or a short
variable declaration `a, b := ...`. -/
inductive Decl where
  | param (name : String)
  | var (name : String)
  | short (names : List String)
deriving DecidableEq, Repr

/-- Go's check of the declarations of one function block, in source order, `seen` being the
identifiers declared before them: the error of the first declaration Go rejects, `none` when it
accepts them all. A parameter or a `var` may not declare an identifier of the block again; a
short variable declaration may, as long as it declares a new one too. -/
def blockError : List String → List Decl → Option String
  | _, [] => none
  | seen, .param x :: ds =>
    if x ∈ seen then some (x ++ " redeclared in this block") else blockError (x :: seen) ds
  | seen, .var x :: ds =>
    if x ∈ seen then some (x ++ " redeclared in this block") else blockError (x :: seen) ds
  | seen, .short xs :: ds =>
    if xs.all (fun x => decide (x ∈ seen)) then some "no new variables on left side of :="
    else blockError (xs ++ seen) ds

/-- The declarations of the function block of `CreateServer` (region.go lines 87-97), in
source order: the receiver `r`, the parameter `ns`, then `var ns *NewServer`, `nsc :=`,
`ep, err :=` and `nsr :=`. The other statements of the body assign and declare nothing. -/
def CreateServer.declarations : List Decl :=
  [.param "r", .param "ns", .var "ns", .short ["nsc"], .short ["ep", "err"], .short ["nsr"]]

/-- `ServerInfoById` (region.go lines 114-130). The error of `EndpointByName` is overwritten
by the one of `perigee.Get`; `&serverEnvelop.Server` on a nil `serverEnvelop` panics. -/
def raxRegion.ServerInfoById {σ ε ι κ Server : Type}
    (Get : Call σ ε κ Empty (Option (ServerInfoContainer Server))) (r : raxRegion ι κ)
    (id : String) (w : σ) : Run σ (Option Server × Option (Error ε)) :=
  let baseUrl := (r.EndpointByName "servers" : String × Option (Error ε)).1
  let serverUrl := sprintfSlash baseUrl id
  let opts : Options κ Empty :=
    { CustomClient := none, ReqBody := none,
      MoreHeaders := [("X-Auth-Token", r.token)], OkCodes := [] }
  match Get serverUrl opts w with
  | ((some err, _), w1) => ⟨.returned (none, some err), [⟨"GET", serverUrl, []⟩], w1⟩
  | ((none, none), w1) => ⟨.panicked, [⟨"GET", serverUrl, []⟩], w1⟩
  | ((none, some serverEnvelop), w1) =>
    ⟨.returned (some serverEnvelop.Server, none), [⟨"GET", serverUrl, []⟩], w1⟩

end servers

/-! ## Vocabulary of the statements -/

namespace monitoring

/-- Either of the two listing operations. -/
inductive ListOp where
  | entities
  | checks (entityId : String)
deriving DecidableEq, Repr

/-- The base path of a listing operation. -/
def ListOp.basePath : ListOp → String
  | .entities => "/entities"
  | .checks entityId => "/entities/" ++ entityId ++ "/checks"

/-- The listing operation `op` names, `ListEntities` or `ListChecks`, run for at most `fuel`
iterations. -/
def ListOp.run {σ ρ ε α : Type} (op : ListOp) (fuel : Nat) (m : MonitoringClient σ ρ ε)
    (DeserializeBody : Decoder ρ ε (PaginatedList α)) (w : σ) : Option (Ended σ (Slice α) ε) :=
  match op with
  | .entities => ListEntities fuel m DeserializeBody w
  | .checks entityId => ListChecks fuel m DeserializeBody entityId w

/-- One iteration of the loop of the listing operation `op` names. -/
def ListOp.iteration {σ ρ ε α : Type} (op : ListOp) (m : MonitoringClient σ ρ ε)
    (DeserializeBody : Decoder ρ ε (PaginatedList α)) (s : LoopVars σ α) :
    LoopVars σ α ⊕ Ended σ (Slice α) ε :=
  match op with
  | .entities => ListEntities.iteration m DeserializeBody s
  | .checks entityId => ListChecks.iteration m DeserializeBody entityId s

/-- The requests issued so far, of a loop that is running or has returned. -/
def sentOf {σ α ε : Type} : LoopVars σ α ⊕ Ended σ (Slice α) ε → List RestRequest
  | .inl s => s.sent
  | .inr r => r.sent

/-- A GET of the base path when there is no marker, and of the base path followed by
`?marker=` and the marker when there is one, expecting status 200. -/
def pageRequest (base : String) : Option String → RestRequest
  | none => ⟨"GET", base, [200]⟩
  | some marker => ⟨"GET", base ++ "?marker=" ++ marker, [200]⟩

/-- The server answers the pages `ps` one after the other: from the world `w`, the request
carrying the marker `mk` succeeds and decodes without error to the first page, the request
carrying that page's marker to the next page, and so on; `w'` is the world after the last
answer and `mk'` the marker of the last page (`w` and `mk` when there is no page). -/
def Serves {σ ρ ε α : Type} (m : MonitoringClient σ ρ ε) (d : Decoder ρ ε (PaginatedList α))
    (base : String) : σ → Option String → List (PaginatedList α) → σ → Option String → Prop
  | w, mk, [], w', mk' => w' = w ∧ mk' = mk
  | w, mk, p :: ps, w', mk' =>
    ∃ resp w1, m.PerformRequest (pageRequest base mk) w = (.ok resp, w1) ∧
      d resp = (p, none) ∧ Serves m d base w1 p.Metadata.NextMarker ps w' mk'

/-- From the world `w`, the request carrying the marker `mk` fails with the error `e`, or
succeeds and its body fails to decode with the error `e`; `w'` is the world afterwards. -/
def FailsWith {σ ρ ε α : Type} (m : MonitoringClient σ ρ ε) (d : Decoder ρ ε (PaginatedList α))
    (base : String) (w : σ) (mk : Option String) (e : ε) (w' : σ) : Prop :=
  m.PerformRequest (pageRequest base mk) w = (.error e, w') ∨
    ∃ resp p, m.PerformRequest (pageRequest base mk) w = (.ok resp, w') ∧ d resp = (p, some e)

/-- From the world `w`, the request carrying the marker `mk` succeeds and decodes without
error to the page `p`, which carries no marker; `w'` is the world afterwards. -/
def EndsWith {σ ρ ε α : Type} (m : MonitoringClient σ ρ ε) (d : Decoder ρ ε (PaginatedList α))
    (base : String) (w : σ) (mk : Option String) (p : PaginatedList α) (w' : σ) : Prop :=
  p.Metadata.NextMarker = none ∧
    ∃ resp, m.PerformRequest (pageRequest base mk) w = (.ok resp, w') ∧ d resp = (p, none)

/-- Every page carries a marker. -/
def AllMarked {α : Type} (ps : List (PaginatedList α)) : Prop :=
  ∀ p ∈ ps, p.Metadata.NextMarker ≠ none

/-- The items of the pages, in page order. -/
def itemsOf {α : Type} (ps : List (PaginatedList α)) : List α :=
  ps.flatMap fun p => p.Values.elems

/-- The requests of a chain: the one carrying `mk`, then one for the marker of each page but
the last. -/
def requestsFor {α : Type} (base : String) : Option String → List (PaginatedList α) →
    List RestRequest
  | _, [] => []
  | mk, p :: ps => pageRequest base mk :: requestsFor base p.Metadata.NextMarker ps

/-- The pages visited before the terminal page, the first page whose marker is absent. -/
def pagesBeforeTerminal {α : Type} (ps : List (PaginatedList α)) : List (PaginatedList α) :=
  ps.takeWhile fun p => p.Metadata.NextMarker.isSome

/-- Cuts a text at the first separator: the text before it and, when there is a separator,
the text after it. -/
def cutAt (sep : Char) : List Char → List Char × Option (List Char)
  | [] => ([], none)
  | c :: cs => if c = sep then ([], some cs) else (c :: (cutAt sep cs).1, (cutAt sep cs).2)

/-- Splits a text at every separator. -/
def splitAll (sep : Char) : List Char → List (List Char)
  | [] => [[]]
  | c :: cs =>
    if c = sep then [] :: splitAll sep cs
    else
      match splitAll sep cs with
      | [] => [[c]]
      | part :: parts => (c :: part) :: parts

/-- The query parameters of a request path, read as a URL reads them and without
percent-decoding: the query is the text after the first `?`, up to a `#`; its parameters are
separated by `&`; the name of a parameter ends at its first `=`. -/
def queryParams (path : String) : List (String × String) :=
  match (cutAt '?' (cutAt '#' path.data).1).2 with
  | none => []
  | some query =>
    (splitAll '&' query).map fun part =>
      (String.mk (cutAt '=' part).1, String.mk ((cutAt '=' part).2.getD []))

/-- The characters a URL takes as they are: letters, digits, `-`, `.`, `_` and `~`. -/
def unreserved (c : Char) : Bool :=
  c.isAlphanum || c == '-' || c == '.' || c == '_' || c == '~'

/-- The loop body both listing operations share, over the base path. -/
def listBody {σ ρ ε α : Type} (base : String) (m : MonitoringClient σ ρ ε)
    (d : Decoder ρ ε (PaginatedList α)) (s : LoopVars σ α) :
    LoopVars σ α ⊕ Ended σ (Slice α) ε :=
  match m.PerformRequest (pageRequest base s.nextMarker) s.world with
  | (.error err, w) => .inr ⟨none, some err, s.sent ++ [pageRequest base s.nextMarker], w⟩
  | (.ok resp, w) =>
    match d resp with
    | (_, some err) => .inr ⟨none, some err, s.sent ++ [pageRequest base s.nextMarker], w⟩
    | (container, none) =>
      match container.Metadata.NextMarker with
      | none => .inr ⟨appendSlice s.items container.Values, none,
          s.sent ++ [pageRequest base s.nextMarker], w⟩
      | some nextMarker => .inl ⟨appendSlice s.items container.Values, some nextMarker,
          s.sent ++ [pageRequest base s.nextMarker], w⟩

end monitoring

/-! ## Example servers -/

namespace monitoring

/-- A server of two pages under `base`: the base path gives page 1, the path carrying the
marker `m1` gives page 2, any other path is refused. A response body is a page number. -/
def twoPageClient (base : String) : MonitoringClient Unit Nat String where
  PerformRequest req _ :=
    if req.Path = base then (.ok 1, ())
    else if req.Path = base ++ "?marker=m1" then (.ok 2, ())
    else (.error "unexpected status 404", ())

/-- Page 1 holds 10 and 11 and the marker `m1`; page 2 holds 12 and no marker. -/
def twoPageDecode : Decoder Nat String (PaginatedList Nat)
  | 1 => (⟨some [10, 11], ⟨some "m1"⟩⟩, none)
  | 2 => (⟨some [12], ⟨none⟩⟩, none)
  | _ => (⟨none, ⟨none⟩⟩, some "unexpected end of JSON input")

/-- A server of one page: whatever the request, body 0. -/
def onePageClient : MonitoringClient Unit Nat String where
  PerformRequest _ _ := (.ok 0, ())

/-- The one page holds no item and no marker. -/
def emptyPageDecode : Decoder Nat String (PaginatedList Nat) :=
  fun _ => (⟨some [], ⟨none⟩⟩, none)

/-- The one page holds the item 7 and no marker. -/
def lastPageDecode : Decoder Nat String (PaginatedList Nat) :=
  fun _ => (⟨some [7], ⟨none⟩⟩, none)

/-- Every page holds the item 1 and the same marker. -/
def sameMarkerDecode : Decoder Nat String (PaginatedList Nat) :=
  fun _ => (⟨some [1], ⟨some "again"⟩⟩, none)

/-- No body decodes. -/
def failingDecode {α : Type} (zero : α) : Decoder Nat String α :=
  fun _ => (zero, some "invalid character")

/-- A server whose page 2 is refused: the base path gives page 1 of `twoPageDecode`, any other
path an unexpected status. -/
def secondPageRefused (base : String) : MonitoringClient Unit Nat String where
  PerformRequest req _ :=
    if req.Path = base then (.ok 1, ()) else (.error "unexpected status 500", ())

/-- A server of two pages: the base path `/entities` gives page 1, any other path page 2. -/
def ampersandClient : MonitoringClient Unit Nat String where
  PerformRequest req _ := if req.Path = "/entities" then (.ok 1, ()) else (.ok 2, ())

/-- Page 1 holds 10 and the marker `m1&limit=1`; page 2 holds 12 and no marker. -/
def ampersandDecode : Decoder Nat String (PaginatedList Nat)
  | 1 => (⟨some [10], ⟨some "m1&limit=1"⟩⟩, none)
  | _ => (⟨some [12], ⟨none⟩⟩, none)

/-- Decodes any body into any shape, keeping the body as the contents. -/
def hostInfoDecode : HostInfoShape → Decoder Nat String Nat :=
  fun _ body => (body, none)

end monitoring

namespace servers

/-- A region whose published base URL is `https://region.example/v2`. -/
def demoRegion : raxRegion Unit Unit :=
  ⟨(), ⟨"https://region.example/v2"⟩, (), "token"⟩

/-- A `perigee` call that also appends the URL it is called with to a log kept in the
world. -/
def recording {σ ε κ β R : Type} (call : Call σ ε κ β R) : Call (σ × List String) ε κ β R :=
  fun url opts w => ((call url opts w.1).1, ((call url opts w.1).2, w.2 ++ [url]))

end servers

/-! ## Lemmas on the listing loop -/

namespace monitoring

theorem iteration_eq_listBody {σ ρ ε α : Type} (op : ListOp) (m : MonitoringClient σ ρ ε)
    (d : Decoder ρ ε (PaginatedList α)) :
    op.iteration m d = listBody op.basePath m d := by
  funext s
  cases op <;> rcases s with ⟨items, mk, sent, w⟩ <;> cases mk <;>
    simp only [ListOp.iteration, ListEntities.iteration, ListChecks.iteration, listBody,
      pageRequest, ListOp.basePath, StatusOK, String.append_assoc] <;> rfl

theorem run_eq_loop {σ ρ ε α : Type} (op : ListOp) (fuel : Nat) (m : MonitoringClient σ ρ ε)
    (d : Decoder ρ ε (PaginatedList α)) (w : σ) :
    op.run fuel m d w = returnedWithin (listBody op.basePath m d) fuel (entry w) := by
  rw [← iteration_eq_listBody]
  cases op <;> rfl


theorem appendSlice_some {α : Type} (l : List α) (v : Slice α) :
    appendSlice (some l) v = some (l ++ v.elems) := by
  unfold appendSlice
  cases v.elems <;> rfl

theorem itemsOf_cons {α : Type} (p : PaginatedList α) (ps : List (PaginatedList α)) :
    itemsOf (p :: ps) = p.Values.elems ++ itemsOf ps := by
  simp [itemsOf]

theorem itemsOf_append {α : Type} (ps qs : List (PaginatedList α)) :
    itemsOf (ps ++ qs) = itemsOf ps ++ itemsOf qs := by
  simp [itemsOf]

theorem requestsFor_length {α : Type} (base : String) (ps : List (PaginatedList α)) :
    ∀ mk, (requestsFor base mk ps).length = ps.length := by
  induction ps with
  | nil => intro mk; rfl
  | cons p ps ih => intro mk; simp [requestsFor, ih]

/-- The three ways one iteration goes, read off the server's answer. -/
theorem listBody_cases {σ ρ ε α : Type} (base : String) (m : MonitoringClient σ ρ ε)
    (d : Decoder ρ ε (PaginatedList α)) (acc : List α) (mk : Option String)
    (sent : List RestRequest) (w : σ) :
    (∃ p nm w1, Serves m d base w mk [p] w1 (some nm) ∧
        listBody base m d ⟨some acc, mk, sent, w⟩ =
          .inl ⟨some (acc ++ p.Values.elems), some nm, sent ++ [pageRequest base mk], w1⟩) ∨
    (∃ p w1, EndsWith m d base w mk p w1 ∧
        listBody base m d ⟨some acc, mk, sent, w⟩ =
          .inr ⟨some (acc ++ p.Values.elems), none, sent ++ [pageRequest base mk], w1⟩) ∨
    (∃ e w1, FailsWith m d base w mk e w1 ∧
        listBody base m d ⟨some acc, mk, sent, w⟩ =
          .inr ⟨none, some e, sent ++ [pageRequest base mk], w1⟩) := by
  rcases hreq : m.PerformRequest (pageRequest base mk) w with ⟨res, w1⟩
  cases res with
  | error e =>
    refine Or.inr (Or.inr ⟨e, w1, Or.inl hreq, ?_⟩)
    simp [listBody, hreq]
  | ok resp =>
    rcases hdec : d resp with ⟨p, err⟩
    cases err with
    | some e =>
      refine Or.inr (Or.inr ⟨e, w1, Or.inr ⟨resp, p, hreq, hdec⟩, ?_⟩)
      simp [listBody, hreq, hdec]
    | none =>
      cases hmk : p.Metadata.NextMarker with
      | none =>
        refine Or.inr (Or.inl ⟨p, w1, ⟨hmk, resp, hreq, hdec⟩, ?_⟩)
        simp [listBody, hreq, hdec, hmk, appendSlice_some]
      | some nm =>
        refine Or.inl ⟨p, nm, w1, ⟨resp, w1, hreq, hdec, rfl, hmk.symm⟩, ?_⟩
        simp [listBody, hreq, hdec, hmk, appendSlice_some]

theorem serves_one {σ ρ ε α : Type} {base : String} {m : MonitoringClient σ ρ ε}
    {d : Decoder ρ ε (PaginatedList α)} {w w1 : σ} {mk mk1 : Option String}
    {p : PaginatedList α} (h : Serves m d base w mk [p] w1 mk1) :
    mk1 = p.Metadata.NextMarker ∧
      ∃ resp, m.PerformRequest (pageRequest base mk) w = (.ok resp, w1) ∧ d resp = (p, none) := by
  obtain ⟨resp, w2, hreq, hdec, hw, hmk⟩ := h
  subst hw
  exact ⟨hmk, resp, hreq, hdec⟩

theorem serves_cons {σ ρ ε α : Type} {base : String} {m : MonitoringClient σ ρ ε}
    {d : Decoder ρ ε (PaginatedList α)} {w w1 w2 : σ} {mk mk1 mk2 : Option String}
    {p : PaginatedList α} {ps : List (PaginatedList α)}
    (h : Serves m d base w mk [p] w1 mk1) (hs : Serves m d base w1 mk1 ps w2 mk2) :
    Serves m d base w mk (p :: ps) w2 mk2 := by
  obtain ⟨hmk, resp, hreq, hdec⟩ := serves_one h
  subst hmk
  exact ⟨resp, w1, hreq, hdec, hs⟩

/-- An answer to a request is unique: the server is a function of the request and the world. -/
theorem listBody_of_serves {σ ρ ε α : Type} (base : String) (m : MonitoringClient σ ρ ε)
    (d : Decoder ρ ε (PaginatedList α)) (acc : List α) (mk : Option String)
    (sent : List RestRequest) (w w1 : σ) (p : PaginatedList α) (nm : String)
    (hreq : ∃ resp, m.PerformRequest (pageRequest base mk) w = (.ok resp, w1) ∧
      d resp = (p, none)) (hmk : p.Metadata.NextMarker = some nm) :
    listBody base m d ⟨some acc, mk, sent, w⟩ =
      .inl ⟨some (acc ++ p.Values.elems), some nm, sent ++ [pageRequest base mk], w1⟩ := by
  obtain ⟨resp, hreq, hdec⟩ := hreq
  simp [listBody, hreq, hdec, hmk, appendSlice_some]

theorem listBody_of_endsWith {σ ρ ε α : Type} (base : String) (m : MonitoringClient σ ρ ε)
    (d : Decoder ρ ε (PaginatedList α)) (acc : List α) (mk : Option String)
    (sent : List RestRequest) (w w1 : σ) (p : PaginatedList α)
    (h : EndsWith m d base w mk p w1) :
    listBody base m d ⟨some acc, mk, sent, w⟩ =
      .inr ⟨some (acc ++ p.Values.elems), none, sent ++ [pageRequest base mk], w1⟩ := by
  obtain ⟨hmk, resp, hreq, hdec⟩ := h
  simp [listBody, hreq, hdec, hmk, appendSlice_some]

theorem listBody_of_failsWith {σ ρ ε α : Type} (base : String) (m : MonitoringClient σ ρ ε)
    (d : Decoder ρ ε (PaginatedList α)) (items : Slice α) (mk : Option String)
    (sent : List RestRequest) (w w1 : σ) (e : ε)
    (h : FailsWith m d base w mk e w1) :
    listBody base m d ⟨items, mk, sent, w⟩ =
      .inr ⟨none, some e, sent ++ [pageRequest base mk], w1⟩ := by
  rcases h with hreq | ⟨resp, p, hreq, hdec⟩
  · simp [listBody, hreq]
  · simp [listBody, hreq, hdec]

/-- Forward: while the server answers marked pages, the loop consumes one page an
iteration. -/
theorem loop_of_serves {σ ρ ε α : Type} (base : String) (m : MonitoringClient σ ρ ε)
    (d : Decoder ρ ε (PaginatedList α)) (k : Nat) (w' : σ) (mk' : Option String) :
    ∀ (ps : List (PaginatedList α)) (acc : List α) (mk : Option String)
      (sent : List RestRequest) (w : σ),
      AllMarked ps → Serves m d base w mk ps w' mk' →
      loop (listBody base m d) (ps.length + k) ⟨some acc, mk, sent, w⟩ =
        loop (listBody base m d) k
          ⟨some (acc ++ itemsOf ps), mk', sent ++ requestsFor base mk ps, w'⟩ := by
  intro ps
  induction ps with
  | nil =>
    intro acc mk sent w _ hs
    obtain ⟨hw, hmk⟩ := hs
    subst hw; subst hmk
    simp [itemsOf, requestsFor]
  | cons p ps ih =>
    intro acc mk sent w hall hs
    obtain ⟨resp, w1, hreq, hdec, hrest⟩ := hs
    have hp : p.Metadata.NextMarker ≠ none := hall p (List.mem_cons_self _ _)
    obtain ⟨nm, hnm⟩ := Option.ne_none_iff_exists'.mp hp
    have hstep := listBody_of_serves base m d acc mk sent w w1 p nm ⟨resp, hreq, hdec⟩ hnm
    have hall' : AllMarked ps := fun q hq => hall q (List.mem_cons_of_mem _ hq)
    have hlen : (p :: ps).length + k = (ps.length + k) + 1 := by simp; omega
    rw [hlen, loop, hstep]
    simp only []
    rw [← hnm, ih _ _ _ _ hall' hrest, itemsOf_cons, requestsFor]
    simp [List.append_assoc]

/-- Backward, for a loop that is still running after `n` iterations. -/
theorem serves_of_loop_inl {σ ρ ε α : Type} (base : String) (m : MonitoringClient σ ρ ε)
    (d : Decoder ρ ε (PaginatedList α)) :
    ∀ (n : Nat) (acc : List α) (mk : Option String) (sent : List RestRequest) (w : σ)
      (s : LoopVars σ α),
      loop (listBody base m d) n ⟨some acc, mk, sent, w⟩ = .inl s →
      ∃ ps, ps.length = n ∧ AllMarked ps ∧ Serves m d base w mk ps s.world s.nextMarker ∧
        s.items = some (acc ++ itemsOf ps) ∧ s.sent = sent ++ requestsFor base mk ps := by
  intro n
  induction n with
  | zero =>
    intro acc mk sent w s h
    simp only [loop, Sum.inl.injEq] at h
    subst h
    exact ⟨[], rfl, fun _ hq => absurd hq (List.not_mem_nil _), ⟨rfl, rfl⟩,
      by simp [itemsOf], by simp [requestsFor]⟩
  | succ n ih =>
    intro acc mk sent w s h
    rw [loop] at h
    rcases listBody_cases base m d acc mk sent w with
      ⟨p, nm, w1, hserve, hstep⟩ | ⟨p, w1, _, hstep⟩ | ⟨e, w1, _, hstep⟩
    · rw [hstep] at h
      simp only [] at h
      obtain ⟨ps, hlen, hall, hs, hitems, hsent⟩ := ih _ _ _ _ _ h
      obtain ⟨hmk, _⟩ := serves_one hserve
      refine ⟨p :: ps, by simp [hlen], ?_, serves_cons hserve hs, ?_, ?_⟩
      · intro q hq
        rcases List.mem_cons.mp hq with rfl | hq
        · rw [← hmk]; simp
        · exact hall q hq
      · rw [hitems, itemsOf_cons, List.append_assoc]
      · rw [hsent, requestsFor, ← hmk]; simp
    · rw [hstep] at h; simp at h
    · rw [hstep] at h; simp at h

/-- Backward, for a loop that has returned within `n` iterations. -/
theorem serves_of_loop_inr {σ ρ ε α : Type} (base : String) (m : MonitoringClient σ ρ ε)
    (d : Decoder ρ ε (PaginatedList α)) :
    ∀ (n : Nat) (acc : List α) (mk : Option String) (sent : List RestRequest) (w : σ)
      (r : Ended σ (Slice α) ε),
      loop (listBody base m d) n ⟨some acc, mk, sent, w⟩ = .inr r →
      ∃ ps w1 mk1, ps.length < n ∧ AllMarked ps ∧ Serves m d base w mk ps w1 mk1 ∧
        r.sent = sent ++ requestsFor base mk ps ++ [pageRequest base mk1] ∧
        ((∃ last, EndsWith m d base w1 mk1 last r.world ∧
            r.value = some (acc ++ itemsOf ps ++ last.Values.elems) ∧ r.err = none) ∨
          (∃ e, FailsWith m d base w1 mk1 e r.world ∧ r.value = none ∧ r.err = some e)) := by
  intro n
  induction n with
  | zero =>
    intro acc mk sent w r h
    simp [loop] at h
  | succ n ih =>
    intro acc mk sent w r h
    rw [loop] at h
    rcases listBody_cases base m d acc mk sent w with
      ⟨p, nm, w1, hserve, hstep⟩ | ⟨p, w1, hend, hstep⟩ | ⟨e, w1, hfail, hstep⟩
    · rw [hstep] at h
      simp only [] at h
      obtain ⟨ps, w2, mk2, hlen, hall, hs, hsent, hres⟩ := ih _ _ _ _ _ h
      obtain ⟨hmk, _⟩ := serves_one hserve
      refine ⟨p :: ps, w2, mk2, by simp; omega, ?_, serves_cons hserve hs, ?_, ?_⟩
      · intro q hq
        rcases List.mem_cons.mp hq with rfl | hq
        · rw [← hmk]; simp
        · exact hall q hq
      · rw [hsent, requestsFor, ← hmk]; simp
      · rcases hres with ⟨last, hend, hval, herr⟩ | ⟨e, hfail, hval, herr⟩
        · refine Or.inl ⟨last, hend, ?_, herr⟩
          rw [hval, itemsOf_cons]; simp [List.append_assoc]
        · exact Or.inr ⟨e, hfail, hval, herr⟩
    · rw [hstep] at h
      simp only [Sum.inr.injEq] at h
      subst h
      exact ⟨[], w, mk, by simp, fun _ hq => absurd hq (List.not_mem_nil _), ⟨rfl, rfl⟩,
        by simp [requestsFor], Or.inl ⟨p, hend, by simp [itemsOf], rfl⟩⟩
    · rw [hstep] at h
      simp only [Sum.inr.injEq] at h
      subst h
      exact ⟨[], w, mk, by simp, fun _ hq => absurd hq (List.not_mem_nil _), ⟨rfl, rfl⟩,
        by simp [requestsFor], Or.inr ⟨e, hfail, rfl, rfl⟩⟩

/-- Once returned, more fuel changes nothing. -/
theorem loop_inr_mono {S R : Type} (body : S → S ⊕ R) (r : R) :
    ∀ (n k : Nat) (s : S), loop body n s = .inr r → loop body (n + k) s = .inr r := by
  intro n
  induction n with
  | zero => intro k s h; simp [loop] at h
  | succ n ih =>
    intro k s h
    have hlen : n + 1 + k = (n + k) + 1 := by omega
    rw [hlen, loop]
    rw [loop] at h
    cases hb : body s with
    | inl s' => rw [hb] at h; simp only [] at h ⊢; exact ih k s' h
    | inr r' => rw [hb] at h; simpa using h

end monitoring

/-! ## The listing operations -/

namespace monitoring

theorem serves_append {σ ρ ε α : Type} {base : String} {m : MonitoringClient σ ρ ε}
    {d : Decoder ρ ε (PaginatedList α)} {w' : σ} {mk' : Option String}
    {qs : List (PaginatedList α)} :
    ∀ {ps : List (PaginatedList α)} {w : σ} {mk : Option String},
      Serves m d base w mk (ps ++ qs) w' mk' ↔
        ∃ w1 mk1, Serves m d base w mk ps w1 mk1 ∧ Serves m d base w1 mk1 qs w' mk' := by
  intro ps
  induction ps with
  | nil =>
    intro w mk
    constructor
    · intro h; exact ⟨w, mk, ⟨rfl, rfl⟩, h⟩
    · rintro ⟨w1, mk1, ⟨hw, hmk⟩, h⟩; subst hw; subst hmk; exact h
  | cons p ps ih =>
    intro w mk
    constructor
    · rintro ⟨resp, w1, hreq, hdec, hrest⟩
      obtain ⟨w2, mk2, h1, h2⟩ := ih.mp hrest
      exact ⟨w2, mk2, ⟨resp, w1, hreq, hdec, h1⟩, h2⟩
    · rintro ⟨w2, mk2, ⟨resp, w1, hreq, hdec, h1⟩, h2⟩
      exact ⟨resp, w1, hreq, hdec, ih.mpr ⟨w2, mk2, h1, h2⟩⟩

theorem requestsFor_append_one {σ ρ ε α : Type} {base : String} {m : MonitoringClient σ ρ ε}
    {d : Decoder ρ ε (PaginatedList α)} {w1 : σ} {mk1 : Option String} (q : PaginatedList α) :
    ∀ {ps : List (PaginatedList α)} {w : σ} {mk : Option String},
      Serves m d base w mk ps w1 mk1 →
      requestsFor base mk (ps ++ [q]) = requestsFor base mk ps ++ [pageRequest base mk1] := by
  intro ps
  induction ps with
  | nil => rintro w mk ⟨_, hmk⟩; subst hmk; rfl
  | cons p ps ih =>
    rintro w mk ⟨resp, w2, _, _, hrest⟩
    simp [requestsFor, ih hrest]

/-- The run of the chain `pages` followed by a last page without marker. -/
theorem run_of_chain {σ ρ ε α : Type} (base : String) (m : MonitoringClient σ ρ ε)
    (d : Decoder ρ ε (PaginatedList α)) (w w' : σ) (pages : List (PaginatedList α))
    (last : PaginatedList α) (fuel : Nat) (hmarked : AllMarked pages)
    (hlast : last.Metadata.NextMarker = none)
    (hserves : Serves m d base w none (pages ++ [last]) w' none)
    (hfuel : pages.length + 1 ≤ fuel) :
    returnedWithin (listBody base m d) fuel (entry w) =
      some ⟨some (itemsOf (pages ++ [last])), none,
        requestsFor base none (pages ++ [last]), w'⟩ := by
  obtain ⟨w1, mk1, hps, hq⟩ := serves_append.mp hserves
  obtain ⟨_, resp, hreq, hdec⟩ := serves_one hq
  have hend : EndsWith m d base w1 mk1 last w' := ⟨hlast, resp, hreq, hdec⟩
  obtain ⟨k, rfl⟩ : ∃ k, fuel = pages.length + (k + 1) := ⟨fuel - (pages.length + 1), by omega⟩
  have hrun := loop_of_serves base m d (k + 1) w1 mk1 pages [] none [] w hmarked hps
  have hstep := listBody_of_endsWith base m d ([] ++ itemsOf pages) mk1
    ([] ++ requestsFor base none pages) w1 w' last hend
  unfold returnedWithin entry make0
  rw [hrun, loop, hstep]
  simp [itemsOf_append, itemsOf, requestsFor_append_one last hps]

/-- The run of the chain `pages` followed by a failure. -/
theorem run_of_failure {σ ρ ε α : Type} (base : String) (m : MonitoringClient σ ρ ε)
    (d : Decoder ρ ε (PaginatedList α)) (w w1 w2 : σ) (pages : List (PaginatedList α))
    (mk1 : Option String) (e : ε) (fuel : Nat) (hmarked : AllMarked pages)
    (hserves : Serves m d base w none pages w1 mk1)
    (hfail : FailsWith m d base w1 mk1 e w2)
    (hfuel : pages.length + 1 ≤ fuel) :
    returnedWithin (listBody base m d) fuel (entry w) =
      some ⟨none, some e, requestsFor base none pages ++ [pageRequest base mk1], w2⟩ := by
  obtain ⟨k, rfl⟩ : ∃ k, fuel = pages.length + (k + 1) := ⟨fuel - (pages.length + 1), by omega⟩
  have hrun := loop_of_serves base m d (k + 1) w1 mk1 pages [] none [] w hmarked hserves
  have hstep := listBody_of_failsWith base m d (some ([] ++ itemsOf pages)) mk1
    ([] ++ requestsFor base none pages) w1 w2 e hfail
  unfold returnedWithin entry make0
  rw [hrun, loop, hstep]
  simp

/-- C1. Pagination completeness of `ListEntities` and `ListChecks` (`op` is either). Let the
server answer the base path with page 1 and the path carrying the marker of page i with page
i+1, every request and decode succeeding, where the pages `pages` (pages 1..K-1) carry
markers and the page `last` (page K) carries none. Then, given at least K iterations, the
operation returns a nil error and the non-nil list of the items of pages 1..K in page order,
having issued exactly K requests (those of the chain), K being `pages.length + 1`. -/
theorem pagination_completeness {σ ρ ε α : Type} (op : ListOp) (m : MonitoringClient σ ρ ε)
    (d : Decoder ρ ε (PaginatedList α)) (w w' : σ) (pages : List (PaginatedList α))
    (last : PaginatedList α) (fuel : Nat) (hmarked : AllMarked pages)
    (hlast : last.Metadata.NextMarker = none)
    (hserves : Serves m d op.basePath w none (pages ++ [last]) w' none)
    (hfuel : pages.length + 1 ≤ fuel) :
    op.run fuel m d w =
        some ⟨some (itemsOf (pages ++ [last])), none,
          requestsFor op.basePath none (pages ++ [last]), w'⟩ ∧
      (requestsFor op.basePath none (pages ++ [last])).length = pages.length + 1 := by
  refine ⟨?_, by simp [requestsFor_length]⟩
  rw [run_eq_loop]
  exact run_of_chain op.basePath m d w w' pages last fuel hmarked hlast hserves hfuel


/-- The witness of C1: a server of two pages for `ListEntities`, and a single empty page for
`ListChecks`, which gives an empty non-nil list after one request. -/
theorem pagination_completeness_witness :
    ListEntities 5 (twoPageClient "/entities") twoPageDecode () =
        some ⟨some [10, 11, 12], none,
          [⟨"GET", "/entities", [200]⟩, ⟨"GET", "/entities?marker=m1", [200]⟩], ()⟩ ∧
      ListChecks 1 onePageClient emptyPageDecode "en1" () =
        some ⟨some [], none, [⟨"GET", "/entities/en1/checks", [200]⟩], ()⟩ :=
  ⟨(pagination_completeness .entities (twoPageClient "/entities") twoPageDecode () ()
      [⟨some [10, 11], ⟨some "m1"⟩⟩] ⟨some [12], ⟨none⟩⟩ 5
      (by intro p hp; simp at hp; subst hp; simp) rfl
      ⟨1, (), rfl, rfl, 2, (), rfl, rfl, rfl, rfl⟩ (by decide)).1,
    (pagination_completeness (.checks "en1") onePageClient emptyPageDecode () ()
      [] ⟨some [], ⟨none⟩⟩ 1 (by intro p hp; simp at hp) rfl
      ⟨0, (), rfl, rfl, rfl, rfl⟩ (by decide)).1⟩

/-- C2. All-or-nothing on failure in `ListEntities` and `ListChecks` (`op` is either). First
part: if the pages `pages` (pages 1..j-1) are fetched and decoded and each carries a marker,
and the request or the decode of page j fails with the error `e`, then, given at least j
iterations, the operation returns the nil list and exactly `e`, having issued exactly j
requests, the failing one last (j is `pages.length + 1`). Second part: whenever the operation
returns a nil error, the list it returns is not nil. -/
theorem all_or_nothing {σ ρ ε α : Type} (op : ListOp) (m : MonitoringClient σ ρ ε)
    (d : Decoder ρ ε (PaginatedList α)) :
    (∀ (w w1 w2 : σ) (pages : List (PaginatedList α)) (mk1 : Option String) (e : ε)
        (fuel : Nat), AllMarked pages → Serves m d op.basePath w none pages w1 mk1 →
        FailsWith m d op.basePath w1 mk1 e w2 → pages.length + 1 ≤ fuel →
        op.run fuel m d w =
            some ⟨none, some e,
              requestsFor op.basePath none pages ++ [pageRequest op.basePath mk1], w2⟩ ∧
          (requestsFor op.basePath none pages ++ [pageRequest op.basePath mk1]).length =
            pages.length + 1) ∧
      (∀ (fuel : Nat) (w : σ) (r : Ended σ (Slice α) ε),
        op.run fuel m d w = some r → r.err = none → r.value ≠ none) := by
  constructor
  · intro w w1 w2 pages mk1 e fuel hmarked hserves hfail hfuel
    refine ⟨?_, by simp [requestsFor_length]⟩
    rw [run_eq_loop]
    exact run_of_failure op.basePath m d w w1 w2 pages mk1 e fuel hmarked hserves hfail hfuel
  · intro fuel w r hrun herr
    rw [run_eq_loop] at hrun
    unfold returnedWithin at hrun
    cases hloop : loop (listBody op.basePath m d) fuel (entry w) with
    | inl s => rw [hloop] at hrun; simp at hrun
    | inr r' =>
      rw [hloop] at hrun
      simp only [Option.some.injEq] at hrun
      subst hrun
      obtain ⟨ps, w1, mk1, _, _, _, _, hres⟩ :=
        serves_of_loop_inr op.basePath m d fuel [] none [] w r' hloop
      rcases hres with ⟨last, _, hval, _⟩ | ⟨e, _, _, herr'⟩
      · rw [hval]; simp
      · rw [herr] at herr'; simp at herr'

/-- The witness of C2: page 2 of `ListEntities` is refused with a status, after page 1 gave
two items; the first and only page of `ListChecks` fails to decode. -/
theorem all_or_nothing_witness :
    ListEntities 2 (secondPageRefused "/entities") twoPageDecode () =
        some ⟨none, some "unexpected status 500",
          [⟨"GET", "/entities", [200]⟩, ⟨"GET", "/entities?marker=m1", [200]⟩], ()⟩ ∧
      ListChecks 1 onePageClient (failingDecode (⟨none, ⟨none⟩⟩ : PaginatedList Nat)) "en1" () =
        some ⟨none, some "invalid character", [⟨"GET", "/entities/en1/checks", [200]⟩], ()⟩ :=
  ⟨((all_or_nothing .entities (secondPageRefused "/entities") twoPageDecode).1 () () ()
      [⟨some [10, 11], ⟨some "m1"⟩⟩] (some "m1") "unexpected status 500" 2
      (by intro p hp; simp at hp; subst hp; simp)
      ⟨1, (), rfl, rfl, rfl, rfl⟩ (Or.inl rfl) (by decide)).1,
    ((all_or_nothing (.checks "en1") onePageClient
      (failingDecode (⟨none, ⟨none⟩⟩ : PaginatedList Nat))).1 () () ()
      [] none "invalid character" 1 (by intro p hp; simp at hp)
      ⟨rfl, rfl⟩ (Or.inr ⟨0, ⟨none, ⟨none⟩⟩, rfl, rfl⟩) (by decide)).1⟩

theorem requestsFor_head {σ ρ ε α : Type} {base : String} {m : MonitoringClient σ ρ ε}
    {d : Decoder ρ ε (PaginatedList α)} {w w1 : σ} {mk mk1 : Option String}
    {ps : List (PaginatedList α)} (h : Serves m d base w mk ps w1 mk1) :
    (requestsFor base mk ps ++ [pageRequest base mk1])[0]? = some (pageRequest base mk) := by
  cases ps with
  | nil => obtain ⟨_, hmk⟩ := h; subst hmk; rfl
  | cons p ps => simp [requestsFor]

/-- Request number `i + 2` of a chain carries the marker of page `i + 1`, which was served. -/
theorem requestsFor_index {σ ρ ε α : Type} {base : String} {m : MonitoringClient σ ρ ε}
    {d : Decoder ρ ε (PaginatedList α)} {w1 : σ} {mk1 : Option String} :
    ∀ (ps : List (PaginatedList α)) (w : σ) (mk : Option String) (i : Nat) (req : RestRequest),
      Serves m d base w mk ps w1 mk1 → AllMarked ps →
      (requestsFor base mk ps ++ [pageRequest base mk1])[i + 1]? = some req →
      ∃ qs w2 nm, qs.length = i + 1 ∧ AllMarked qs ∧ Serves m d base w mk qs w2 (some nm) ∧
        (∃ q, qs.getLast? = some q ∧ q.Metadata.NextMarker = some nm) ∧
        req = pageRequest base (some nm) := by
  intro ps
  induction ps with
  | nil =>
    intro w mk i req _ _ hreq
    simp [requestsFor] at hreq
  | cons p ps ih =>
    intro w mk i req hs hall hreq
    obtain ⟨resp, w2, hperf, hdec, hrest⟩ := hs
    have hp : p.Metadata.NextMarker ≠ none := hall p (List.mem_cons_self _ _)
    obtain ⟨nm, hnm⟩ := Option.ne_none_iff_exists'.mp hp
    have hall' : AllMarked ps := fun q hq => hall q (List.mem_cons_of_mem _ hq)
    simp only [requestsFor, List.cons_append, List.getElem?_cons_succ] at hreq
    cases i with
    | zero =>
      rw [requestsFor_head hrest] at hreq
      simp only [Option.some.injEq] at hreq
      refine ⟨[p], w2, nm, rfl, ?_, ⟨resp, w2, hperf, hdec, rfl, hnm.symm⟩, ⟨p, rfl, hnm⟩, ?_⟩
      · intro q hq
        rw [List.mem_singleton] at hq
        subst hq; exact hp
      · rw [← hreq, hnm]
    | succ j =>
      obtain ⟨qs, w3, nm', hlen, hqall, hqs, ⟨q, hlast, hq⟩, hreq'⟩ :=
        ih w2 p.Metadata.NextMarker j req hrest hall' hreq
      refine ⟨p :: qs, w3, nm', by simp [hlen], ?_, ⟨resp, w2, hperf, hdec, hqs⟩,
        ⟨q, ?_, hq⟩, hreq'⟩
      · intro x hx
        rcases List.mem_cons.mp hx with rfl | hx
        · exact hp
        · exact hqall x hx
      · cases qs with
        | nil => simp at hlen
        | cons q0 qs0 => simpa [List.getLast?_cons_cons] using hlast

/-- The requests issued within `n` iterations are those of a chain of served pages, with one
more request behind them once the loop has returned. -/
theorem sentOf_loop {σ ρ ε α : Type} (base : String) (m : MonitoringClient σ ρ ε)
    (d : Decoder ρ ε (PaginatedList α)) (w : σ) (n : Nat) :
    ∃ ps w1 mk1, AllMarked ps ∧ Serves m d base w none ps w1 mk1 ∧
      (sentOf (loop (listBody base m d) n (entry w)) = requestsFor base none ps ∧
          ps.length = n ∨
        sentOf (loop (listBody base m d) n (entry w)) =
          requestsFor base none ps ++ [pageRequest base mk1]) := by
  cases hloop : loop (listBody base m d) n (entry w) with
  | inl s =>
    obtain ⟨ps, hlen, hall, hs, _, hsent⟩ := serves_of_loop_inl base m d n [] none [] w s hloop
    exact ⟨ps, s.world, s.nextMarker, hall, hs, Or.inl ⟨by simpa [sentOf] using hsent, hlen⟩⟩
  | inr r =>
    obtain ⟨ps, w1, mk1, _, hall, hs, hsent, _⟩ :=
      serves_of_loop_inr base m d n [] none [] w r hloop
    exact ⟨ps, w1, mk1, hall, hs, Or.inr (by simpa [sentOf] using hsent)⟩

theorem listBody_sent {σ ρ ε α : Type} (base : String) (m : MonitoringClient σ ρ ε)
    (d : Decoder ρ ε (PaginatedList α)) (s : LoopVars σ α) :
    sentOf (listBody base m d s) = s.sent ++ [pageRequest base s.nextMarker] := by
  rcases hreq : m.PerformRequest (pageRequest base s.nextMarker) s.world with ⟨res, w1⟩
  cases res with
  | error e => simp [listBody, hreq, sentOf]
  | ok resp =>
    rcases hdec : d resp with ⟨p, err⟩
    cases err with
    | some e => simp [listBody, hreq, hdec, sentOf]
    | none =>
      cases hmk : p.Metadata.NextMarker with
      | none => simp [listBody, hreq, hdec, hmk, sentOf]
      | some nm => simp [listBody, hreq, hdec, hmk, sentOf]

/-- An iteration issues the request for the marker it holds, and no later iteration takes a
request back. -/
theorem loop_sent_head {σ ρ ε α : Type} (base : String) (m : MonitoringClient σ ρ ε)
    (d : Decoder ρ ε (PaginatedList α)) :
    ∀ (k : Nat) (s : LoopVars σ α), ∃ l,
      sentOf (loop (listBody base m d) (k + 1) s) =
        s.sent ++ pageRequest base s.nextMarker :: l := by
  intro k
  induction k with
  | zero =>
    intro s
    refine ⟨[], ?_⟩
    have hs := listBody_sent base m d s
    simp only [loop]
    cases hb : listBody base m d s with
    | inl s' => rw [hb] at hs; simpa [loop] using hs
    | inr r => rw [hb] at hs; simpa using hs
  | succ k ih =>
    intro s
    have hs := listBody_sent base m d s
    rw [loop]
    cases hb : listBody base m d s with
    | inl s' =>
      rw [hb] at hs
      obtain ⟨l, hl⟩ := ih s'
      refine ⟨pageRequest base s'.nextMarker :: l, ?_⟩
      simp only [sentOf] at hs
      simp only []
      rw [hl, hs]
      simp
    | inr r =>
      rw [hb] at hs
      exact ⟨[], by simpa using hs⟩

theorem cutAt_of_not_mem (sep : Char) :
    ∀ (a : List Char), sep ∉ a → cutAt sep a = (a, none) := by
  intro a
  induction a with
  | nil => intro _; rfl
  | cons c cs ih =>
    intro h
    have hc : c ≠ sep := fun e => h (by simp [e])
    have hcs : sep ∉ cs := fun e => h (List.mem_cons_of_mem _ e)
    simp [cutAt, hc, ih hcs]

theorem cutAt_append (sep : Char) (b : List Char) :
    ∀ (a : List Char), sep ∉ a → cutAt sep (a ++ sep :: b) = (a, some b) := by
  intro a
  induction a with
  | nil => intro _; simp [cutAt]
  | cons c cs ih =>
    intro h
    have hc : c ≠ sep := fun e => h (by simp [e])
    have hcs : sep ∉ cs := fun e => h (List.mem_cons_of_mem _ e)
    simp [cutAt, hc, ih hcs]

theorem splitAll_of_not_mem (sep : Char) :
    ∀ (a : List Char), sep ∉ a → splitAll sep a = [a] := by
  intro a
  induction a with
  | nil => intro _; rfl
  | cons c cs ih =>
    intro h
    have hc : c ≠ sep := fun e => h (by simp [e])
    have hcs : sep ∉ cs := fun e => h (List.mem_cons_of_mem _ e)
    simp [splitAll, hc, ih hcs]

theorem not_mem_of_unreserved (sep : Char) (hsep : unreserved sep = false) (marker : String)
    (hm : ∀ c ∈ marker.data, unreserved c = true) : sep ∉ marker.data := by
  intro h
  have hc := hm sep h
  rw [hsep] at hc
  cases hc

/-- The query of a continuation path, for a base path without query or fragment and a marker
of unreserved characters. -/
theorem queryParams_marker (base marker : String) (hq : '?' ∉ base.data)
    (hf : '#' ∉ base.data) (hm : ∀ c ∈ marker.data, unreserved c = true) :
    queryParams (base ++ "?marker=" ++ marker) = [("marker", marker)] := by
  have hamp : '&' ∉ marker.data := not_mem_of_unreserved '&' (by decide) marker hm
  have hfrag : '#' ∉ marker.data := not_mem_of_unreserved '#' (by decide) marker hm
  have hdata : (base ++ "?marker=" ++ marker).data =
      base.data ++ '?' :: ("marker=".data ++ marker.data) := by
    simp [String.data_append]
  have h1 : cutAt '#' (base.data ++ '?' :: ("marker=".data ++ marker.data)) =
      (base.data ++ '?' :: ("marker=".data ++ marker.data), none) := by
    apply cutAt_of_not_mem
    intro h
    simp only [List.mem_append, List.mem_cons] at h
    rcases h with h | h | h | h
    · exact hf h
    · exact absurd h (by decide)
    · exact absurd h (by decide)
    · exact hfrag h
  have h2 : splitAll '&' ("marker=".data ++ marker.data) =
      ["marker=".data ++ marker.data] := by
    apply splitAll_of_not_mem
    intro h
    simp only [List.mem_append] at h
    rcases h with h | h
    · exact absurd h (by decide)
    · exact hamp h
  have h3 : cutAt '=' ("marker=".data ++ marker.data) = ("marker".data, some marker.data) :=
    cutAt_append '=' marker.data "marker".data (by decide)
  unfold queryParams
  rw [hdata, h1]
  simp only []
  rw [cutAt_append '?' _ base.data hq]
  simp only [h2, List.map, h3]
  rfl

/-- C5, amended. Continuation request of `ListEntities` and `ListChecks` (`op` is either).
First part: within any positive number of iterations the first request is a GET of the
unmodified base path. Second part: if pages 1..i are served and decoded, each with a marker,
`marker` being the one of page i, then within any number of iterations above i the (i+1)-th
request is issued and is a GET whose path is the base path followed by `?marker=` and the
marker of page i alone; the marker is concatenated as it is, and the query of that path is
the single parameter `marker` set to that marker when the base path holds no `?` and no `#`
and the marker holds unreserved characters only. Third part: for every i >= 1, an (i+1)-th
request is issued only after pages 1..i were served and decoded, each with a marker, and it
is that GET. -/
theorem continuation_request {σ ρ ε α : Type} (op : ListOp) (m : MonitoringClient σ ρ ε)
    (d : Decoder ρ ε (PaginatedList α)) (w : σ) :
    (∀ n : Nat, (sentOf (loop (op.iteration m d) (n + 1) (entry w)))[0]? =
        some ⟨"GET", op.basePath, [200]⟩) ∧
      (∀ (ps : List (PaginatedList α)) (w1 : σ) (marker : String) (n : Nat),
        AllMarked ps → Serves m d op.basePath w none ps w1 (some marker) →
        ps.length + 1 ≤ n →
        (sentOf (loop (op.iteration m d) n (entry w)))[ps.length]? =
            some ⟨"GET", op.basePath ++ "?marker=" ++ marker, [200]⟩ ∧
          ('?' ∉ op.basePath.data → '#' ∉ op.basePath.data →
            (∀ c ∈ marker.data, unreserved c = true) →
            queryParams (op.basePath ++ "?marker=" ++ marker) = [("marker", marker)])) ∧
      (∀ (n i : Nat) (req : RestRequest), 1 ≤ i →
        (sentOf (loop (op.iteration m d) n (entry w)))[i]? = some req →
        ∃ ps w1 marker, ps.length = i ∧ AllMarked ps ∧
          Serves m d op.basePath w none ps w1 (some marker) ∧
          (∃ p, ps.getLast? = some p ∧ p.Metadata.NextMarker = some marker) ∧
          req = ⟨"GET", op.basePath ++ "?marker=" ++ marker, [200]⟩) := by
  rw [iteration_eq_listBody]
  refine ⟨?_, ?_, ?_⟩
  · intro n
    obtain ⟨l, hl⟩ := loop_sent_head op.basePath m d n (entry w)
    rw [hl]
    simp [entry, pageRequest]
  · intro ps w1 marker n hall hs hn
    refine ⟨?_, queryParams_marker op.basePath marker⟩
    obtain ⟨k, rfl⟩ : ∃ k, n = ps.length + (k + 1) := ⟨n - (ps.length + 1), by omega⟩
    have hrun := loop_of_serves op.basePath m d (k + 1) w1 (some marker) ps [] none [] w hall hs
    obtain ⟨l, hl⟩ := loop_sent_head op.basePath m d k
      (⟨some ([] ++ itemsOf ps), some marker, [] ++ requestsFor op.basePath none ps, w1⟩ :
        LoopVars σ α)
    have hentry : (entry w : LoopVars σ α) = ⟨some [], none, [], w⟩ := rfl
    rw [hentry, hrun, hl]
    simp only [List.nil_append]
    have hlen : (requestsFor op.basePath none ps).length = ps.length :=
      requestsFor_length op.basePath ps none
    rw [List.getElem?_append_right (by omega), hlen]
    simp [pageRequest]
  · intro n i req hi hreq
    obtain ⟨j, rfl⟩ : ∃ j, i = j + 1 := ⟨i - 1, by omega⟩
    obtain ⟨ps, w1, mk1, hall, hs, hsent | hsent⟩ := sentOf_loop op.basePath m d w n
    · obtain ⟨hsent, _⟩ := hsent
      rw [hsent] at hreq
      have hlt : j + 1 < (requestsFor op.basePath none ps).length := by
        by_contra hge
        rw [List.getElem?_eq_none (by omega)] at hreq
        simp at hreq
      have hreq' : (requestsFor op.basePath none ps ++ [pageRequest op.basePath mk1])[j + 1]? =
          some req := by
        rw [List.getElem?_append_left hlt]; exact hreq
      exact requestsFor_index ps w none j req hs hall hreq'
    · rw [hsent] at hreq
      exact requestsFor_index ps w none j req hs hall hreq

/-- The witness of C5: against the server of two pages, the second request of `ListEntities`
is issued within two iterations and carries the marker `m1` of page 1 as its single query
parameter. -/
theorem continuation_request_witness :
    (sentOf (loop (ListEntities.iteration (twoPageClient "/entities") twoPageDecode) 2
        (entry ())))[1]? = some ⟨"GET", "/entities?marker=m1", [200]⟩ ∧
      queryParams "/entities?marker=m1" = [("marker", "m1")] :=
  ⟨((continuation_request .entities (twoPageClient "/entities") twoPageDecode ()).2.1
      [⟨some [10, 11], ⟨some "m1"⟩⟩] () "m1" 2
      (by intro p hp; simp at hp; subst hp; simp) ⟨1, (), rfl, rfl, rfl, rfl⟩ (by decide)).1,
    ((continuation_request .entities (twoPageClient "/entities") twoPageDecode ()).2.1
      [⟨some [10, 11], ⟨some "m1"⟩⟩] () "m1" 2
      (by intro p hp; simp at hp; subst hp; simp) ⟨1, (), rfl, rfl, rfl, rfl⟩ (by decide)).2
      (by decide) (by decide) (by decide)⟩

/-- The counterexample of C5 as stated: page 1 carries the marker `m1&limit=1`. The second
request of `ListEntities` has the path `/entities?marker=m1&limit=1`, whose query holds two
parameters, `marker` set to `m1` and `limit` set to `1`: the parameter `marker` is not set to
the marker of page 1, and it is not the only one. -/
theorem continuation_query_refuted :
    ListEntities 2 ampersandClient ampersandDecode () =
        some ⟨some [10, 12], none,
          [⟨"GET", "/entities", [200]⟩, ⟨"GET", "/entities?marker=m1&limit=1", [200]⟩], ()⟩ ∧
      (ampersandDecode 1).1.Metadata.NextMarker = some "m1&limit=1" ∧
      queryParams "/entities?marker=m1&limit=1" = [("marker", "m1"), ("limit", "1")] ∧
      queryParams "/entities?marker=m1&limit=1" ≠ [("marker", "m1&limit=1")] :=
  ⟨rfl, rfl, by decide, by decide⟩

/-- C8, amended. Accumulator invariant: after every successful call of `ListEntities` or
`ListChecks` (`op` is either), the returned list holds exactly the items, in page order, of
all the pages visited up to and including the terminal page `last`, the page whose marker is
absent; the pages `pages` before it were served one after the other and carry markers, and
one request was issued for each page. -/
theorem accumulator_invariant {σ ρ ε α : Type} (op : ListOp) (m : MonitoringClient σ ρ ε)
    (d : Decoder ρ ε (PaginatedList α)) (fuel : Nat) (w : σ) (r : Ended σ (Slice α) ε)
    (hrun : op.run fuel m d w = some r) (herr : r.err = none) :
    ∃ pages last w1 mk1, AllMarked pages ∧ Serves m d op.basePath w none pages w1 mk1 ∧
      EndsWith m d op.basePath w1 mk1 last r.world ∧
      r.value = some (itemsOf (pages ++ [last])) ∧ r.sent.length = pages.length + 1 := by
  rw [run_eq_loop] at hrun
  unfold returnedWithin at hrun
  cases hloop : loop (listBody op.basePath m d) fuel (entry w) with
  | inl s => rw [hloop] at hrun; simp at hrun
  | inr r' =>
    rw [hloop] at hrun
    simp only [Option.some.injEq] at hrun
    subst hrun
    obtain ⟨ps, w1, mk1, _, hall, hs, hsent, hres⟩ :=
      serves_of_loop_inr op.basePath m d fuel [] none [] w r' hloop
    rcases hres with ⟨last, hend, hval, _⟩ | ⟨e, _, _, herr'⟩
    · refine ⟨ps, last, w1, mk1, hall, hs, hend, ?_, ?_⟩
      · rw [hval]; simp [itemsOf_append, itemsOf]
      · rw [hsent]; simp [requestsFor_length]
    · rw [herr] at herr'; simp at herr'

/-- The witness of C8: `ListChecks` against the server of two pages returns the items of
page 1 and of the terminal page 2. -/
theorem accumulator_invariant_witness :
    ∃ pages last w1 mk1, AllMarked pages ∧
      Serves (twoPageClient "/entities/en1/checks") twoPageDecode "/entities/en1/checks" ()
        none pages w1 mk1 ∧
      EndsWith (twoPageClient "/entities/en1/checks") twoPageDecode "/entities/en1/checks"
        w1 mk1 last () ∧
      (some [10, 11, 12] : Slice Nat) = some (itemsOf (pages ++ [last])) ∧
      2 = pages.length + 1 :=
  accumulator_invariant (.checks "en1") (twoPageClient "/entities/en1/checks") twoPageDecode 2
    () ⟨some [10, 11, 12], none,
      [⟨"GET", "/entities/en1/checks", [200]⟩,
        ⟨"GET", "/entities/en1/checks?marker=m1", [200]⟩], ()⟩ rfl rfl

/-- The counterexample of C8 as stated: `ListEntities` against a server whose first page
holds the item 7 and no marker. That page is the terminal page, no page was visited before
it, and yet the returned list holds 7. -/
theorem accumulator_before_terminal_refuted :
    ListEntities 1 onePageClient lastPageDecode () =
        some ⟨some [7], none, [⟨"GET", "/entities", [200]⟩], ()⟩ ∧
      EndsWith onePageClient lastPageDecode "/entities" () none ⟨some [7], ⟨none⟩⟩ () ∧
      itemsOf (pagesBeforeTerminal [(⟨some [7], ⟨none⟩⟩ : PaginatedList Nat)]) = [] ∧
      (some [7] : Slice Nat) ≠
        some (itemsOf (pagesBeforeTerminal [(⟨some [7], ⟨none⟩⟩ : PaginatedList Nat)])) :=
  ⟨rfl, ⟨rfl, 0, rfl, rfl⟩, rfl, by decide⟩

theorem loop_succ_end {S R : Type} (body : S → S ⊕ R) :
    ∀ (n : Nat) (s : S),
      loop body (n + 1) s =
        match loop body n s with
        | .inl s' => body s'
        | .inr r => .inr r := by
  intro n
  induction n with
  | zero =>
    intro s
    simp only [loop]
    cases body s <;> rfl
  | succ n ih =>
    intro s
    rw [loop]
    cases hb : body s with
    | inl s' => simp only []; rw [ih s']; simp [loop, hb]
    | inr r => simp [loop, hb]

/-- C9. No cycle detection in `ListEntities` and `ListChecks` (`op` is either). First part:
against a server whose every successfully decoded page carries a marker, no run returns a
list: a run that returns, returns an error. Second part: if moreover every page of the marker
chain is served and decoded (for every n the server answers a chain of n pages, each with a
marker), then for every n the loop is still running after n iterations, has issued n
requests, its next iteration issues one more request and does not return, and the operation
has not returned within n iterations. Third part: the operation returns within some number
of iterations if and only if, after a chain of served pages with markers, a page has no
marker or its request or decode fails. -/
theorem no_cycle_detection {σ ρ ε α : Type} (op : ListOp) (m : MonitoringClient σ ρ ε)
    (d : Decoder ρ ε (PaginatedList α)) (w : σ) :
    ((∀ resp p, d resp = (p, none) → p.Metadata.NextMarker ≠ none) →
        ∀ fuel r, op.run fuel m d w = some r → r.err ≠ none) ∧
      ((∀ n, ∃ ps w1 mk1, ps.length = n ∧ AllMarked ps ∧
          Serves m d op.basePath w none ps w1 mk1) →
        ∀ n, (∃ s, loop (op.iteration m d) n (entry w) = .inl s ∧ s.sent.length = n ∧
            ∃ s', op.iteration m d s = .inl s' ∧
              s'.sent = s.sent ++ [pageRequest op.basePath s.nextMarker]) ∧
          op.run n m d w = none) ∧
      ((∃ fuel, op.run fuel m d w ≠ none) ↔
        ∃ ps w1 mk1, AllMarked ps ∧ Serves m d op.basePath w none ps w1 mk1 ∧
          ((∃ p w2, EndsWith m d op.basePath w1 mk1 p w2) ∨
            ∃ e w2, FailsWith m d op.basePath w1 mk1 e w2)) := by
  have hrunning : (∀ n, ∃ ps w1 mk1, ps.length = n ∧ AllMarked ps ∧
      Serves m d op.basePath w none ps w1 mk1) →
      ∀ n, ∃ s, loop (listBody op.basePath m d) n (entry w) = .inl s ∧ s.sent.length = n := by
    intro hchain n
    obtain ⟨ps, w1, mk1, hlen, hall, hs⟩ := hchain n
    have hrun := loop_of_serves op.basePath m d 0 w1 mk1 ps [] none [] w hall hs
    rw [Nat.add_zero, hlen] at hrun
    exact ⟨_, hrun, by simp [requestsFor_length, hlen]⟩
  refine ⟨?_, ?_, ?_, ?_⟩
  · intro hmarked fuel r hrun herr
    rw [run_eq_loop] at hrun
    unfold returnedWithin at hrun
    cases hloop : loop (listBody op.basePath m d) fuel (entry w) with
    | inl s => rw [hloop] at hrun; simp at hrun
    | inr r' =>
      rw [hloop] at hrun
      simp only [Option.some.injEq] at hrun
      subst hrun
      obtain ⟨ps, w1, mk1, _, _, _, _, hres⟩ :=
        serves_of_loop_inr op.basePath m d fuel [] none [] w r' hloop
      rcases hres with ⟨last, ⟨hnone, resp, _, hdec⟩, _, _⟩ | ⟨e, _, _, herr'⟩
      · exact hmarked resp last hdec hnone
      · rw [herr] at herr'; simp at herr'
  · intro hchain n
    obtain ⟨s, hs, hlen⟩ := hrunning hchain n
    obtain ⟨s', hs', _⟩ := hrunning hchain (n + 1)
    rw [loop_succ_end, hs] at hs'
    simp only [] at hs'
    refine ⟨⟨s, by rw [iteration_eq_listBody]; exact hs, hlen, s', ?_, ?_⟩, ?_⟩
    · rw [iteration_eq_listBody]; exact hs'
    · rcases s with ⟨items, mk, sent, w0⟩
      rcases hreq : m.PerformRequest (pageRequest op.basePath mk) w0 with ⟨res, w1⟩
      cases res with
      | error e => simp [listBody, hreq] at hs'
      | ok resp =>
        rcases hdec : d resp with ⟨p, err⟩
        cases err with
        | some e => simp [listBody, hreq, hdec] at hs'
        | none =>
          cases hmk : p.Metadata.NextMarker with
          | none => simp [listBody, hreq, hdec, hmk] at hs'
          | some nm =>
            simp [listBody, hreq, hdec, hmk] at hs'
            rw [← hs']
    · rw [run_eq_loop]; unfold returnedWithin; rw [hs]
  · rintro ⟨fuel, hrun⟩
    rw [run_eq_loop] at hrun
    unfold returnedWithin at hrun
    cases hloop : loop (listBody op.basePath m d) fuel (entry w) with
    | inl s => rw [hloop] at hrun; simp at hrun
    | inr r =>
      obtain ⟨ps, w1, mk1, _, hall, hs, _, hres⟩ :=
        serves_of_loop_inr op.basePath m d fuel [] none [] w r hloop
      refine ⟨ps, w1, mk1, hall, hs, ?_⟩
      rcases hres with ⟨last, hend, _, _⟩ | ⟨e, hfail, _, _⟩
      · exact Or.inl ⟨last, r.world, hend⟩
      · exact Or.inr ⟨e, r.world, hfail⟩
  · rintro ⟨ps, w1, mk1, hall, hs, ⟨p, w2, hend⟩ | ⟨e, w2, hfail⟩⟩
    · refine ⟨ps.length + 1, ?_⟩
      rw [run_eq_loop]
      have hserves : Serves m d op.basePath w none (ps ++ [p]) w2 none := by
        obtain ⟨hnone, resp, hreq, hdec⟩ := hend
        exact serves_append.mpr ⟨w1, mk1, hs, ⟨resp, w2, hreq, hdec, rfl, hnone.symm⟩⟩
      rw [run_of_chain op.basePath m d w w2 ps p _ hall hend.1 hserves (Nat.le_refl _)]
      simp
    · refine ⟨ps.length + 1, ?_⟩
      rw [run_eq_loop,
        run_of_failure op.basePath m d w w1 w2 ps mk1 e _ hall hs hfail (Nat.le_refl _)]
      simp

theorem sameMarker_serves (base : String) :
    ∀ (n : Nat) (mk : Option String), ∃ mk1,
      Serves onePageClient sameMarkerDecode base () mk
        (List.replicate n ⟨some [1], ⟨some "again"⟩⟩) () mk1 := by
  intro n
  induction n with
  | zero => intro mk; exact ⟨mk, rfl, rfl⟩
  | succ n ih =>
    intro mk
    obtain ⟨mk1, h⟩ := ih (some "again")
    exact ⟨mk1, 0, (), rfl, rfl, h⟩

/-- The witness of C9: against the server that repeats the marker `again` forever,
`ListEntities` has not returned within 1000 iterations and is still issuing requests. -/
theorem no_cycle_detection_witness :
    (∃ s, loop (ListEntities.iteration onePageClient sameMarkerDecode) 1000 (entry ()) =
          .inl s ∧ s.sent.length = 1000 ∧
        ∃ s', ListEntities.iteration onePageClient sameMarkerDecode s = .inl s' ∧
          s'.sent = s.sent ++ [pageRequest "/entities" s.nextMarker]) ∧
      ListEntities 1000 onePageClient sameMarkerDecode () = none :=
  (no_cycle_detection .entities onePageClient sameMarkerDecode ()).2.1
    (fun n => by
      obtain ⟨mk1, h⟩ := sameMarker_serves ListOp.entities.basePath n none
      refine ⟨_, (), mk1, List.length_replicate _ _, ?_, h⟩
      intro p hp
      rw [List.eq_of_mem_replicate hp]
      simp) 1000

end monitoring

/-! ## The single-shot monitoring operations -/

namespace monitoring

theorem hostInfoSwitch_eq_none (hostInfoType : String)
    (htag : hostInfoType ∉ ["cpus", "memory", "network_interfaces", "system", "disks",
      "filesystems", "processes"]) : hostInfoSwitch hostInfoType = none := by
  simp only [List.mem_cons, List.mem_singleton, List.not_mem_nil, or_false, not_or] at htag
  obtain ⟨h1, h2, h3, h4, h5, h6, h7⟩ := htag
  simp [hostInfoSwitch, h1, h2, h3, h4, h5, h6, h7]

/-- C4, amended. Unrecognized type tag in `HostInfoEntity`: for every entity id and every tag
that is not one of the seven known tags, `HostInfoEntity` logs `Invalid Type` and ends the
process with exit status 1; it issues no request, leaves the world as it was and returns
nothing to its caller. -/
theorem hostInfo_unknown_tag_exits {σ ρ ε J : Type} (m : MonitoringClient σ ρ ε)
    (d : HostInfoShape → Decoder ρ ε J) (entityId hostInfoType : String) (w : σ)
    (htag : hostInfoType ∉ ["cpus", "memory", "network_interfaces", "system", "disks",
      "filesystems", "processes"]) :
    HostInfoEntity m d entityId hostInfoType w = ⟨.exited 1, ["Invalid Type"], [], w⟩ := by
  simp [HostInfoEntity, hostInfoSwitch_eq_none hostInfoType htag]

/-- The witness of C4: the tag `bogus`. -/
theorem hostInfo_unknown_tag_exits_witness :
    HostInfoEntity onePageClient hostInfoDecode "en1" "bogus" () =
      ⟨.exited 1, ["Invalid Type"], [], ()⟩ :=
  hostInfo_unknown_tag_exits onePageClient hostInfoDecode "en1" "bogus" () (by decide)

/-- The counterexample of C4 as stated: with the tag `bogus` the call ends the process with
exit status 1, so it does not return an error value, or anything, to its caller. -/
theorem hostInfo_invalid_argument_refuted :
    (HostInfoEntity onePageClient hostInfoDecode "en1" "bogus" ()).outcome = .exited 1 ∧
      ¬ ∃ v e, (HostInfoEntity onePageClient hostInfoDecode "en1" "bogus" ()).outcome =
        .returned (v, some e) := by
  refine ⟨rfl, ?_⟩
  rintro ⟨v, e, h⟩
  have h1 : (HostInfoEntity onePageClient hostInfoDecode "en1" "bogus" ()).outcome =
      .exited 1 := rfl
  rw [h1] at h
  cases h

/-- C6, the code at a failing input: the request succeeds and the body fails to decode with
the error `invalid character`. `GetEntity` returns that error; `AgentTargets` and
`HostInfoEntity` (tag `cpus`) return a nil error next to the value. -/
theorem decode_error_swallowed :
    (failingDecode (0 : Nat) 0).2 = some "invalid character" ∧
      (GetEntity onePageClient (failingDecode (0 : Nat)) "en1" ()).err =
        some "invalid character" ∧
      AgentTargets onePageClient (failingDecode (0 : Nat)) "en1" "agent.cpu" () =
        ⟨some 0, none,
          [⟨"GET", "/entities/en1/agent/check_types/agent.cpu/targets", [200]⟩], ()⟩ ∧
      HostInfoEntity onePageClient (fun _ => failingDecode (0 : Nat)) "en1" "cpus" () =
        ⟨.returned (some (.CpuHostInfo, 0), none), [],
          [⟨"GET", "/entities/en1/agent/host_info/cpus", [200]⟩], ()⟩ :=
  ⟨rfl, rfl, rfl, rfl⟩

end monitoring

/-! ## The region operations -/

namespace servers

theorem mapIndex_supportedEndpoint (name : String) :
    mapIndex supportedEndpoint name = true ↔ name ∈ ["images", "flavors", "servers"] := by
  by_cases h1 : name = "images"
  · subst h1; decide
  by_cases h2 : name = "flavors"
  · subst h2; decide
  by_cases h3 : name = "servers"
  · subst h3; decide
  have e1 : (name == "images") = false := by simpa using h1
  have e2 : (name == "flavors") = false := by simpa using h2
  have e3 : (name == "servers") = false := by simpa using h3
  simp [mapIndex, supportedEndpoint, List.lookup, h1, h2, h3, e1, e2, e3]

theorem sprintfSlash_literal (b : String) (name tail : String) (h : "/" ++ name = tail) :
    sprintfSlash b name = b ++ tail := by
  rw [sprintfSlash, String.append_assoc, h]

theorem append_ne_empty (b tail : String) (h : tail.length ≠ 0) : b ++ tail ≠ "" := by
  intro heq
  have hlen := congrArg String.length heq
  rw [String.length_append] at hlen
  simp at hlen
  exact h hlen.2

/-- C3. Endpoint allow-list of `EndpointByName`: for every region and every name, the result
is the base URL followed by a slash and the name, with a nil error, if and only if the name
is one of `images`, `flavors`, `servers`; for every other name it is the empty string and the
`Unsupported endpoint` error; and the result is the one of any region with the same base URL,
whatever its identity, client and token. `EndpointByName` is a function of the region and the
name alone: it has no way to issue a request. -/
theorem endpoint_allow_list {ι κ ε : Type} (r : raxRegion ι κ) (name : String) :
    ((r.EndpointByName name : String × Option (Error ε)) =
          (r.entryEndpoint.PublicURL ++ "/" ++ name, none) ↔
        name ∈ ["images", "flavors", "servers"]) ∧
      (name ∉ ["images", "flavors", "servers"] →
        (r.EndpointByName name : String × Option (Error ε)) =
          ("", some (.Errorf "Unsupported endpoint"))) ∧
      (r.EndpointByName name : String × Option (Error ε)) =
        (⟨(), r.entryEndpoint, (), ""⟩ : raxRegion Unit Unit).EndpointByName name := by
  refine ⟨?_, ?_, rfl⟩
  · by_cases h : mapIndex supportedEndpoint name = true
    · simp [raxRegion.EndpointByName, h, sprintfSlash, (mapIndex_supportedEndpoint name).mp h]
    · have hn : name ∉ ["images", "flavors", "servers"] :=
        fun hmem => h ((mapIndex_supportedEndpoint name).mpr hmem)
      simp [raxRegion.EndpointByName, h, hn]
  · intro hn
    have h : ¬ mapIndex supportedEndpoint name = true :=
      fun h => hn ((mapIndex_supportedEndpoint name).mp h)
    simp [raxRegion.EndpointByName, h]

/-- The witness of C3: the names `bogus`, the empty name and `Servers` are refused, and
`servers` resolves. -/
theorem endpoint_allow_list_witness :
    (demoRegion.EndpointByName "bogus" : String × Option (Error String)) =
        ("", some (.Errorf "Unsupported endpoint")) ∧
      (demoRegion.EndpointByName "" : String × Option (Error String)) =
        ("", some (.Errorf "Unsupported endpoint")) ∧
      (demoRegion.EndpointByName "Servers" : String × Option (Error String)) =
        ("", some (.Errorf "Unsupported endpoint")) ∧
      (demoRegion.EndpointByName "servers" : String × Option (Error String)) =
        ("https://region.example/v2" ++ "/" ++ "servers", none) :=
  ⟨(endpoint_allow_list demoRegion "bogus").2.1 (by decide),
    (endpoint_allow_list demoRegion "").2.1 (by decide),
    (endpoint_allow_list demoRegion "Servers").2.1 (by decide),
    (endpoint_allow_list demoRegion "servers").1.mpr (by decide)⟩


theorem endpointByName_servers {ι κ ε : Type} (r : raxRegion ι κ) :
    (r.EndpointByName "servers" : String × Option (Error ε)) =
      (r.entryEndpoint.PublicURL ++ "/servers", none) := by
  have h : mapIndex supportedEndpoint "servers" = true := by decide
  simp [raxRegion.EndpointByName, h, sprintfSlash_literal _ "servers" "/servers" rfl]

theorem endpointByName_flavors {ι κ ε : Type} (r : raxRegion ι κ) :
    (r.EndpointByName "flavors" : String × Option (Error ε)) =
      (r.entryEndpoint.PublicURL ++ "/flavors", none) := by
  have h : mapIndex supportedEndpoint "flavors" = true := by decide
  simp [raxRegion.EndpointByName, h, sprintfSlash_literal _ "flavors" "/flavors" rfl]

theorem endpointByName_images {ι κ ε : Type} (r : raxRegion ι κ) :
    (r.EndpointByName "images" : String × Option (Error ε)) =
      (r.entryEndpoint.PublicURL ++ "/images", none) := by
  have h : mapIndex supportedEndpoint "images" = true := by decide
  simp [raxRegion.EndpointByName, h, sprintfSlash_literal _ "images" "/images" rfl]

/-- C7, the code as Go builds it: the function block of `CreateServer` declares `ns` as a
parameter and again by `var`, so Go rejects the function with `ns redeclared in this block`;
there is no `CreateServer` to call and nothing is returned. With the `var` left out the block
would be accepted. -/
theorem createServer_redeclares_ns :
    blockError [] CreateServer.declarations = some "ns redeclared in this block" ∧
      blockError [] (CreateServer.declarations.erase (.var "ns")) = none := by
  decide

/-- C10, on the code. For every region, `EndpointByName` gives a nil error and the base URL
followed by `/flavors`, `/images` and `/servers` for the three names the operations pass.
`Flavors`, `Images`, `Servers` and `ServerInfoById` each hand `perigee` exactly one URL, the
base URL followed by `/flavors`, `/images`, `/servers`, and `/servers/` and the id: run over
a `perigee` that records the URLs it is called with, they leave exactly that URL in the
record and the world that `perigee` gives for that URL and their options; and none of these
URLs is the empty string. `CreateServer` is not built by Go, so it requests nothing. -/
theorem region_endpoints_requested {σ ε ι κ Flavor Image Server : Type}
    (r : raxRegion ι κ)
    (GetFlavors : Call σ ε κ Empty (Option (FlavorsContainer Flavor)))
    (GetImages : Call σ ε κ Empty (Option (ImagesContainer Image)))
    (GetServers : Call σ ε κ Empty (Option (ServersContainer Server)))
    (GetServer : Call σ ε κ Empty (Option (ServerInfoContainer Server)))
    (id : String) (w : σ) :
    ((r.EndpointByName "flavors" : String × Option (Error ε)) =
          (r.entryEndpoint.PublicURL ++ "/flavors", none) ∧
        (r.EndpointByName "images" : String × Option (Error ε)) =
          (r.entryEndpoint.PublicURL ++ "/images", none) ∧
        (r.EndpointByName "servers" : String × Option (Error ε)) =
          (r.entryEndpoint.PublicURL ++ "/servers", none)) ∧
      ((r.Flavors (recording GetFlavors) (w, [])).world =
          ((GetFlavors (r.entryEndpoint.PublicURL ++ "/flavors")
              ⟨some r.httpClient, none, [("X-Auth-Token", r.token)], []⟩ w).2,
            [r.entryEndpoint.PublicURL ++ "/flavors"]) ∧
        (r.Images (recording GetImages) (w, [])).world =
          ((GetImages (r.entryEndpoint.PublicURL ++ "/images")
              ⟨some r.httpClient, none, [("X-Auth-Token", r.token)], []⟩ w).2,
            [r.entryEndpoint.PublicURL ++ "/images"]) ∧
        (r.Servers (recording GetServers) (w, [])).world =
          ((GetServers (r.entryEndpoint.PublicURL ++ "/servers")
              ⟨some r.httpClient, none, [("X-Auth-Token", r.token)], []⟩ w).2,
            [r.entryEndpoint.PublicURL ++ "/servers"]) ∧
        (r.ServerInfoById (recording GetServer) id (w, [])).world =
          ((GetServer (r.entryEndpoint.PublicURL ++ "/servers/" ++ id)
              ⟨none, none, [("X-Auth-Token", r.token)], []⟩ w).2,
            [r.entryEndpoint.PublicURL ++ "/servers/" ++ id])) ∧
      ((r.Flavors GetFlavors w).calls = [⟨"GET", r.entryEndpoint.PublicURL ++ "/flavors", []⟩] ∧
        (r.Images GetImages w).calls = [⟨"GET", r.entryEndpoint.PublicURL ++ "/images", []⟩] ∧
        (r.Servers GetServers w).calls =
          [⟨"GET", r.entryEndpoint.PublicURL ++ "/servers", []⟩] ∧
        (r.ServerInfoById GetServer id w).calls =
          [⟨"GET", r.entryEndpoint.PublicURL ++ "/servers/" ++ id, []⟩]) ∧
      (r.entryEndpoint.PublicURL ++ "/flavors" ≠ "" ∧
        r.entryEndpoint.PublicURL ++ "/images" ≠ "" ∧
        r.entryEndpoint.PublicURL ++ "/servers" ≠ "" ∧
        r.entryEndpoint.PublicURL ++ "/servers/" ++ id ≠ "") ∧
      blockError [] CreateServer.declarations = some "ns redeclared in this block" := by
  have hurl : sprintfSlash (r.entryEndpoint.PublicURL ++ "/servers") id =
      r.entryEndpoint.PublicURL ++ "/servers/" ++ id := by
    rw [sprintfSlash, String.append_assoc r.entryEndpoint.PublicURL "/servers" "/"]
    rfl
  refine ⟨⟨endpointByName_flavors r, endpointByName_images r, endpointByName_servers r⟩,
    ⟨?_, ?_, ?_, ?_⟩, ⟨?_, ?_, ?_, ?_⟩, ⟨?_, ?_, ?_, ?_⟩, by decide⟩
  · simp only [raxRegion.Flavors, endpointByName_flavors, recording, List.nil_append]
    rcases GetFlavors _ _ w with ⟨⟨_ | err, _ | fc⟩, w1⟩ <;> rfl
  · simp only [raxRegion.Images, endpointByName_images, recording, List.nil_append]
    rcases GetImages _ _ w with ⟨⟨_ | err, _ | ic⟩, w1⟩ <;> rfl
  · simp only [raxRegion.Servers, endpointByName_servers, recording, List.nil_append]
    rcases GetServers _ _ w with ⟨⟨_ | err, _ | sc⟩, w1⟩ <;> rfl
  · simp only [raxRegion.ServerInfoById, endpointByName_servers, hurl, recording,
      List.nil_append]
    rcases GetServer _ _ w with ⟨⟨_ | err, _ | sc⟩, w1⟩ <;> rfl
  · simp only [raxRegion.Flavors, endpointByName_flavors]
    rcases GetFlavors _ _ w with ⟨⟨_ | err, _ | fc⟩, w1⟩ <;> rfl
  · simp only [raxRegion.Images, endpointByName_images]
    rcases GetImages _ _ w with ⟨⟨_ | err, _ | ic⟩, w1⟩ <;> rfl
  · simp only [raxRegion.Servers, endpointByName_servers]
    rcases GetServers _ _ w with ⟨⟨_ | err, _ | sc⟩, w1⟩ <;> rfl
  · simp only [raxRegion.ServerInfoById, endpointByName_servers, hurl]
    rcases GetServer _ _ w with ⟨⟨_ | err, _ | sc⟩, w1⟩ <;> rfl
  · exact append_ne_empty _ _ (by decide)
  · exact append_ne_empty _ _ (by decide)
  · exact append_ne_empty _ _ (by decide)
  · rw [String.append_assoc]
    refine append_ne_empty _ _ ?_
    rw [String.length_append]
    have h : "/servers/".length = 9 := by decide
    omega

end servers

end Gorax
